import Mathlib

/-!
Verification of the transcript-to-slide alignment core of the
semantic_chunking_lectures repository.

The embedded code is `src/processors/chunk_matcher.py`
(`TranscriptSlideChunker.build_chunks_with_windows`,
`_generate_slide_embeddings`, `_find_best_slide_match`,
`build_simple_dict`) and `src/processors/build_data.py`
(`build_transcripts`).

Modelling conventions:
* Embedding vectors are rational vectors (`List ℚ`); the external
  SentenceTransformer model (`model.encode`,
  `model.get_sentence_embedding_dimension`) and the external sklearn
  `cosine_similarity` scorer are supplied as explicit parameters in an
  `EmbedModel` record, since both are external collaborators of the core.
* Python dictionaries (which preserve insertion order and have unique
  keys) are modelled as association lists in insertion order.
* Python `//` is floor division; on `ℤ` with the positive literal
  divisor 2 Lean's `/` (`Int.ediv`) agrees with it, so `w / 2` models
  `window_size // 2` exactly, including for negative `w`.
* The only exception the aligner itself can raise is the `ValueError`
  from `range(0, n, 0)` when `window_size // 2 == 0`; it is modelled by
  `Except.error ChunkError.rangeStepZero`.
-/

/-- Error raised by Python `range` when its step argument is zero:
`range(0, len(sentence_list), window_size // 2)` with
`window_size // 2 == 0` (that is, `window_size` 0 or 1). -/
inductive ChunkError where
  | rangeStepZero
  deriving DecidableEq, Repr

/-- Embedding vectors are fixed-length numeric vectors; we use rational
coordinates so that all comparisons are exact and decidable. -/
abbrev Vec := List ℚ

/-- The external collaborators of the chunker: `encode` models
`model.encode`, `dim` models `model.get_sentence_embedding_dimension()`,
and `sim` models `sklearn.metrics.pairwise.cosine_similarity` (reshaping
to 1-row matrices and taking entry `[0][0]` is the identity here). -/
structure EmbedModel where
  encode : String → Vec
  dim : ℕ
  sim : Vec → Vec → ℚ

/-- The all-zero embedding `np.zeros(dim)` assigned to an empty slide. -/
def zeroVector (d : ℕ) : Vec := List.replicate d (0 : ℚ)

/-- Dot product of two vectors (componentwise product, summed; excess
components of the longer vector are ignored, as with equal-length
vectors nothing is ignored). -/
def dotQ (a b : Vec) : ℚ := (List.zipWith (· * ·) a b).sum

/-- Association-list lookup with integer keys, mirroring a Python dict
read `d[p]` / `p in d` (first occurrence wins; dict keys are unique). -/
def lookupZ {α : Type} (p : ℤ) : List (ℤ × α) → Option α
  | [] => none
  | (q, a) :: rest => if p = q then some a else lookupZ p rest

/-- Association-list in-place value update at key `p` (first occurrence),
mirroring a Python dict write `d[p] = f(d[p])`. -/
def updateAt {α : Type} (p : ℤ) (f : α → α) : List (ℤ × α) → List (ℤ × α)
  | [] => []
  | (q, a) :: rest => if p = q then (q, f a) :: rest else (q, a) :: updateAt p f rest

/-- Python dict assignment `d[k] = v`: overwrite the value in place if
the key is present (keeping its position), otherwise append a new entry. -/
def dictInsert (d : List (String × Vec)) (k : String) (v : Vec) : List (String × Vec) :=
  match d with
  | [] => [(k, v)]
  | (q, a) :: rest => if q = k then (k, v) :: rest else (q, a) :: dictInsert rest k v

/-- Python `content.strip()`: remove leading and trailing whitespace. -/
def pyStrip (s : String) : String :=
  String.mk (((s.data.dropWhile Char.isWhitespace).reverse.dropWhile Char.isWhitespace).reverse)

/-- Python `" ".join(window_sentences)`. -/
def joinWords (ws : List String) : String := String.intercalate " " ws

/-- Python `range(0, n, step)`: for a positive step the indices
`0, step, 2*step, ...` below `n`; empty for a negative step (the step-0
error is raised by the caller before this point). -/
def windowIndices (n : ℕ) (step : ℤ) : List ℕ :=
  if 0 < step then
    (List.range ((n + step.toNat - 1) / step.toNat)).map (fun k => k * step.toNat)
  else []

/-- The window enumeration of `build_chunks_with_windows`
(chunk_matcher.py lines 60-61): iterate `i` over
`range(0, len(sentence_list), window_size // 2)` and slice
`sentence_list[i : i + window_size]`; a zero step raises `ValueError`. -/
def build_windows (sentence_list : List String) (window_size : ℤ) :
    Except ChunkError (List (List String)) :=
  if window_size / 2 = 0 then .error .rangeStepZero
  else
    .ok ((windowIndices sentence_list.length (window_size / 2)).map
      (fun i => (sentence_list.drop i).take window_size.toNat))

/-- One chunk of `build_chunks_with_windows` output: the dictionary with
keys `page_num`, `slide_content`, `transcript_sentences`,
`similarities`, `window_similarity` (`page_num` is an `Option` because
`build_simple_dict` also accepts the `None`-page chunks produced by the
legacy `_match_and_chunk`). -/
structure Chunk where
  page_num : Option ℤ
  slide_content : String
  transcript_sentences : List String
  similarities : List ℚ
  window_similarity : ℚ
  deriving DecidableEq, Repr

/-- The loop state of `build_chunks_with_windows`: the sealed `chunks`
list and the mutable `current_chunk` (or `None`). -/
structure ChunkState where
  chunks : List Chunk
  current : Option Chunk
  deriving DecidableEq, Repr

/-- `_generate_slide_embeddings` (chunk_matcher.py lines 114-133): strip
each slide's content; embed it if non-empty, otherwise assign the
all-zero vector of the model dimensionality. -/
def generate_slide_embeddings (M : EmbedModel) (slide_pages : List (ℤ × String)) :
    List (ℤ × Vec) :=
  slide_pages.map (fun pc =>
    if pyStrip pc.2 ≠ "" then (pc.1, M.encode (pyStrip pc.2)) else (pc.1, zeroVector M.dim))

/-- `_find_best_slide_match` (chunk_matcher.py lines 199-218): scan all
slides keeping the strictly-highest similarity, starting from
`best_page = None`, `best_similarity = -1.0`; the final
`(best_page, best_similarity) if best_page else None` is falsy both for
`None` and for a best page numbered 0. -/
def find_best_slide_match (M : EmbedModel) (sentence_embedding : Vec)
    (slide_embeddings : List (ℤ × Vec)) : Option (ℤ × ℚ) :=
  match slide_embeddings.foldl
    (fun (acc : Option ℤ × ℚ) pe =>
      if acc.2 < M.sim sentence_embedding pe.2
      then (some pe.1, M.sim sentence_embedding pe.2) else acc)
    ((none : Option ℤ), (-1 : ℚ)) with
  | (some p, s) => if p = 0 then none else some (p, s)
  | (none, _) => none

/-- Opening a new chunk (chunk_matcher.py lines 88-94): seed it with a
copy of the window sentences, one similarity entry per sentence, and the
slide content looked up in `slide_pages` (the page always comes from the
slide-embedding map built from the same dict, so the `getD` default is
unreachable). -/
def newChunk (slide_pages : List (ℤ × String)) (page_num : ℤ) (similarity : ℚ)
    (window_sentences : List String) : Chunk :=
  { page_num := some page_num
    slide_content := (lookupZ page_num slide_pages).getD ""
    transcript_sentences := window_sentences
    similarities := List.replicate window_sentences.length similarity
    window_similarity := similarity }

/-- Extending the current chunk (chunk_matcher.py lines 96-100): append
each window sentence not already present, recording the current window's
similarity for each appended sentence. -/
def extendChunk (c : Chunk) (similarity : ℚ) : List String → Chunk
  | [] => c
  | s :: rest =>
    if s ∈ c.transcript_sentences then extendChunk c similarity rest
    else
      extendChunk
        { c with
          transcript_sentences := c.transcript_sentences ++ [s]
          similarities := c.similarities ++ [similarity] }
        similarity rest

/-- The body of the window loop of `build_chunks_with_windows`
(chunk_matcher.py lines 62-105) for one window: skip an empty window,
skip a window whose best match is falsy, otherwise apply the
threshold-gated seal/open/extend policy. -/
def processWindow (M : EmbedModel) (slide_pages : List (ℤ × String))
    (slide_embeddings : List (ℤ × Vec)) (similarity_threshold : ℚ)
    (st : ChunkState) (window_sentences : List String) : ChunkState :=
  if window_sentences = [] then st
  else
    match find_best_slide_match M (M.encode (joinWords window_sentences)) slide_embeddings with
    | none => st
    | some (page_num, similarity) =>
      if similarity_threshold ≤ similarity then
        match st.current with
        | none => { st with current := some (newChunk slide_pages page_num similarity window_sentences) }
        | some c =>
          if c.page_num ≠ some page_num then
            { chunks := st.chunks ++ [c]
              current := some (newChunk slide_pages page_num similarity window_sentences) }
          else
            { st with current := some (extendChunk c similarity window_sentences) }
      else
        match st.current with
        | some c => { chunks := st.chunks ++ [c], current := none }
        | none => st

/-- Final flush (chunk_matcher.py lines 107-109): append the still-open
chunk, if any, to the sealed list. -/
def finalChunks (st : ChunkState) : List Chunk :=
  match st.current with
  | some c => st.chunks ++ [c]
  | none => st.chunks

/-- `build_chunks_with_windows` (chunk_matcher.py lines 24-112): build
slide embeddings, window the sentence list (the keys of the
`transcript_sentences` dict), and fold the window loop. -/
def build_chunks_with_windows (M : EmbedModel)
    (transcript_sentences : List (String × Vec)) (slide_pages : List (ℤ × String))
    (window_size : ℤ) (similarity_threshold : ℚ) : Except ChunkError (List Chunk) :=
  match build_windows (transcript_sentences.map Prod.fst) window_size with
  | .error e => .error e
  | .ok windows =>
    .ok (finalChunks (windows.foldl
      (processWindow M slide_pages (generate_slide_embeddings M slide_pages)
        similarity_threshold)
      ⟨[], none⟩))

/-- One chunk's contribution to `build_simple_dict`
(chunk_matcher.py lines 242-256): skip `None`-page chunks; initialize
the slide entry on demand if missing; append all of the chunk's
transcript sentences to the slide's list. -/
def addChunk (sd : List (ℤ × String × List String)) (c : Chunk) :
    List (ℤ × String × List String) :=
  match c.page_num with
  | none => sd
  | some p =>
    let sd' := if (lookupZ p sd).isSome then sd else sd ++ [(p, c.slide_content, [])]
    updateAt p (fun ct => (ct.1, ct.2 ++ c.transcript_sentences)) sd'

/-- `build_simple_dict` (chunk_matcher.py lines 221-258): initialize
every slide of `slide_pages` with an empty transcript list (the Python
`if slide_pages:` guard is equivalent to mapping over the possibly-empty
dict), then fold the chunks in. NOTE: the source function takes no
sentence list and returns only this dictionary; no
`unmatched_transcripts` collection is computed. -/
def build_simple_dict (chunks : List Chunk) (slide_pages : List (ℤ × String)) :
    List (ℤ × String × List String) :=
  chunks.foldl addChunk (slide_pages.map (fun pc => (pc.1, pc.2, ([] : List String))))

/-- `build_transcripts` (build_data.py lines 4-23): fold the cleaned
transcript lines into a dict mapping each sentence to its embedding;
dict assignment makes a later duplicate occurrence overwrite the value
of the first occurrence, keeping the first occurrence's position. -/
def build_transcripts (embed : String → Vec) (lines : List String) :
    List (String × Vec) :=
  lines.foldl (fun d line => dictInsert d line (embed line)) []

/-- First-occurrence deduplication of a list; used to characterize the
key order of the dict built by `build_transcripts`. -/
def firstOccurrences (lines : List String) : List String :=
  lines.foldl (fun acc l => if l ∈ acc then acc else acc ++ [l]) []

/-- All sentences stored in a list of chunks, concatenated. -/
def chunkListSents (cs : List Chunk) : List String :=
  (cs.map (fun c => c.transcript_sentences)).flatten

/-- All sentences stored in the loop state (sealed chunks plus the open
chunk, if any). -/
def stateSents (st : ChunkState) : List String :=
  chunkListSents st.chunks ++
    (match st.current with
     | some c => c.transcript_sentences
     | none => [])

/-- All sentence texts placed in any slide's transcript list of a
`build_simple_dict` result. -/
def resultSents (sd : List (ℤ × String × List String)) : List String :=
  (sd.map (fun e => e.2.2)).flatten

/-- The transcript list assigned to slide `p` in a `build_simple_dict`
result (empty if the slide is absent). -/
def slideTranscripts (sd : List (ℤ × String × List String)) (p : ℤ) : List String :=
  ((lookupZ p sd).map (fun ct => ct.2)).getD []

/-- A window is accepted when its best slide match exists (and is
truthy) and its similarity reaches the threshold; exactly the windows
whose sentences `build_chunks_with_windows` commits to chunks. -/
def windowAccepted (M : EmbedModel) (slide_embeddings : List (ℤ × Vec))
    (similarity_threshold : ℚ) (ws : List String) : Bool :=
  match find_best_slide_match M (M.encode (joinWords ws)) slide_embeddings with
  | some (_, s) => decide (similarity_threshold ≤ s)
  | none => false

/-- Squared Euclidean norm of a vector. -/
def normSq (v : Vec) : ℚ := dotQ v v

/-- The row norm used by sklearn `cosine_similarity`
(`normalize` replaces a zero norm by 1 before dividing, so a zero row is
left unchanged instead of producing NaN). -/
noncomputable def safeNorm (v : Vec) : ℝ :=
  if normSq v = 0 then 1 else Real.sqrt (normSq v)

/-- Cosine similarity as computed by
`sklearn.metrics.pairwise.cosine_similarity` in exact arithmetic: the
dot product divided by the product of the safe row norms. -/
noncomputable def cosine_similarity (a b : Vec) : ℝ :=
  (dotQ a b : ℝ) / (safeNorm a * safeNorm b)

/-- Spec description of the window starts ("positions 0, step, 2*step,
... where step = max(1, window_size // 2)"). -/
def specWindowStarts (n : ℕ) (window_size : ℕ) : List ℕ :=
  (List.range ((n + max 1 (window_size / 2) - 1) / max 1 (window_size / 2))).map
    (fun k => k * max 1 (window_size / 2))

/-- Spec description of the window sequence: from each start, up to
`window_size` consecutive sentences (the final window may be shorter). -/
def specWindows (sentence_list : List String) (window_size : ℕ) : List (List String) :=
  (specWindowStarts sentence_list.length window_size).map
    (fun i => (sentence_list.drop i).take window_size)

deriving instance DecidableEq for Except

/-! ### Concrete deterministic embedders used for concrete runs

The vectors are unit basis vectors, on which the dot product `dotQ`
coincides with exact cosine similarity, so these instantiations are
realizable by the sklearn scorer. -/

/-- Deterministic embedder for a three-sentence run with window size 2:
windows "a b" and "b c" point at different slides. -/
def cxEncode : String → Vec := fun t =>
  if t = "a b" then [1, 0] else if t = "b c" then [0, 1] else if t = "c" then [0, 1]
  else if t = "A" then [1, 0] else if t = "B" then [0, 1] else [0, 0]

/-- Model bundling `cxEncode` with the dot-product scorer. -/
def cxM : EmbedModel := ⟨cxEncode, 2, dotQ⟩

/-- Two slides with contents "A" and "B". -/
def cxSlides : List (ℤ × String) := [(1, "A"), (2, "B")]

/-- Transcript dict with sentences "a", "b", "c" (the stored sentence
embeddings are unused by the windowed matcher, which re-embeds windows). -/
def cxTr : List (String × Vec) := [("a", []), ("b", []), ("c", [])]

/-- The chunk list produced by the run
`build_chunks_with_windows cxM cxTr cxSlides 2 (1/2)`. -/
def cxChunks : List Chunk :=
  [⟨some 1, "A", ["a", "b"], [1, 1], 1⟩, ⟨some 2, "B", ["b", "c"], [1, 1], 1⟩]

/-- Deterministic embedder for a five-sentence run with window size 3:
windows 1 and 3 point at slide 1, window 2 at slide 2, so the shared
sentence "c" is committed to slide 1 twice. -/
def cx6Encode : String → Vec := fun t =>
  if t = "a b c" then [1, 0] else if t = "b c d" then [0, 1] else if t = "c d e" then [1, 0]
  else if t = "d e" then [1, 0] else if t = "e" then [1, 0]
  else if t = "A" then [1, 0] else if t = "B" then [0, 1] else [0, 0]

/-- Model bundling `cx6Encode` with the dot-product scorer. -/
def cx6M : EmbedModel := ⟨cx6Encode, 2, dotQ⟩

/-- Transcript dict with sentences "a" .. "e". -/
def cx6Tr : List (String × Vec) := [("a", []), ("b", []), ("c", []), ("d", []), ("e", [])]

/-- The chunk list produced by the run
`build_chunks_with_windows cx6M cx6Tr cxSlides 3 (1/2)`. -/
def cx6Chunks : List Chunk :=
  [⟨some 1, "A", ["a", "b", "c"], [1, 1, 1], 1⟩,
   ⟨some 2, "B", ["b", "c", "d"], [1, 1, 1], 1⟩,
   ⟨some 1, "A", ["c", "d", "e"], [1, 1, 1], 1⟩]

/-! ### Helper lemmas about the association-list dict model -/

lemma lookupZ_isSome_iff {α : Type} (p : ℤ) (l : List (ℤ × α)) :
    (lookupZ p l).isSome ↔ p ∈ l.map Prod.fst := by
  induction l with
  | nil => simp [lookupZ]
  | cons hd tl ih =>
    obtain ⟨q, a⟩ := hd
    by_cases h : p = q <;> simp [lookupZ, h, ih]

lemma updateAt_map_fst {α : Type} (p : ℤ) (f : α → α) (l : List (ℤ × α)) :
    (updateAt p f l).map Prod.fst = l.map Prod.fst := by
  induction l with
  | nil => simp [updateAt]
  | cons hd tl ih =>
    obtain ⟨q, a⟩ := hd
    by_cases h : p = q <;> simp [updateAt, h, ih]

/-! ### Helper lemmas about chunk extension -/

lemma extendChunk_page_num (c : Chunk) (v : ℚ) (ws : List String) :
    (extendChunk c v ws).page_num = c.page_num := by
  induction ws generalizing c with
  | nil => simp [extendChunk]
  | cons s rest ih =>
    by_cases h : s ∈ c.transcript_sentences <;> simp [extendChunk, h, ih]

lemma extendChunk_slide_content (c : Chunk) (v : ℚ) (ws : List String) :
    (extendChunk c v ws).slide_content = c.slide_content := by
  induction ws generalizing c with
  | nil => simp [extendChunk]
  | cons s rest ih =>
    by_cases h : s ∈ c.transcript_sentences <;> simp [extendChunk, h, ih]

lemma mem_extendChunk (c : Chunk) (v : ℚ) (ws : List String) (s : String) :
    s ∈ (extendChunk c v ws).transcript_sentences ↔
      s ∈ c.transcript_sentences ∨ s ∈ ws := by
  induction ws generalizing c with
  | nil => simp [extendChunk]
  | cons w rest ih =>
    by_cases h : w ∈ c.transcript_sentences
    · rw [extendChunk]
      simp only [h, if_true, ih]
      constructor
      · rintro (hc | hr)
        · exact Or.inl hc
        · exact Or.inr (List.mem_cons_of_mem _ hr)
      · rintro (hc | hw)
        · exact Or.inl hc
        · rcases List.mem_cons.mp hw with rfl | hr
          · exact Or.inl h
          · exact Or.inr hr
    · rw [extendChunk]
      simp only [h, if_false, ih]
      simp [List.mem_append, List.mem_cons]
      tauto

lemma nodup_extendChunk (c : Chunk) (v : ℚ) (ws : List String)
    (h : c.transcript_sentences.Nodup) :
    (extendChunk c v ws).transcript_sentences.Nodup := by
  induction ws generalizing c with
  | nil => simpa [extendChunk]
  | cons w rest ih =>
    by_cases hw : w ∈ c.transcript_sentences
    · rw [extendChunk]
      simp only [hw, if_true]
      exact ih c h
    · rw [extendChunk]
      simp only [hw, if_false]
      apply ih
      simp only [List.nodup_append, List.nodup_cons, List.nodup_nil]
      exact ⟨h, by simp, by simpa [List.disjoint_singleton] using hw⟩

/-! ### Properties of the best-match scan -/

lemma find_best_fold_mem (M : EmbedModel) (e : Vec) (sembs : List (ℤ × Vec)) :
    ∀ (acc : Option ℤ × ℚ) (p : ℤ),
      (sembs.foldl
        (fun (acc : Option ℤ × ℚ) pe =>
          if acc.2 < M.sim e pe.2 then (some pe.1, M.sim e pe.2) else acc) acc).1 = some p →
      acc.1 = some p ∨ p ∈ sembs.map Prod.fst := by
  induction sembs with
  | nil => intro acc p h; exact Or.inl h
  | cons hd tl ih =>
    intro acc p h
    simp only [List.foldl_cons] at h
    rcases ih _ p h with h2 | h2
    · by_cases hlt : acc.2 < M.sim e hd.2
      · simp only [hlt, if_true] at h2
        right
        simp only [Option.some.injEq] at h2
        simp [← h2]
      · simp only [hlt, if_false] at h2
        exact Or.inl h2
    · right
      simp [h2]

lemma find_best_slide_match_mem (M : EmbedModel) (e : Vec) (sembs : List (ℤ × Vec))
    (p : ℤ) (v : ℚ) (h : find_best_slide_match M e sembs = some (p, v)) :
    p ∈ sembs.map Prod.fst := by
  unfold find_best_slide_match at h
  rcases hm : sembs.foldl
      (fun (acc : Option ℤ × ℚ) pe =>
        if acc.2 < M.sim e pe.2 then (some pe.1, M.sim e pe.2) else acc)
      ((none : Option ℤ), (-1 : ℚ)) with ⟨b, sv⟩
  rw [hm] at h
  cases b with
  | none => simp at h
  | some q =>
    by_cases hq : q = 0
    · simp [hq] at h
    · simp only [hq, if_false, Option.some.injEq, Prod.mk.injEq] at h
      obtain ⟨rfl, rfl⟩ := h
      have hmem := find_best_fold_mem M e sembs ((none : Option ℤ), (-1 : ℚ)) q
      rw [hm] at hmem
      rcases hmem rfl with h2 | h2
      · simp at h2
      · exact h2

lemma generate_slide_embeddings_map_fst (M : EmbedModel) (sp : List (ℤ × String)) :
    (generate_slide_embeddings M sp).map Prod.fst = sp.map Prod.fst := by
  unfold generate_slide_embeddings
  rw [List.map_map]
  apply List.map_congr_left
  intro pc _
  by_cases h : pyStrip pc.2 = "" <;> simp [h]

/-! ### Membership characterization of the window loop -/

lemma chunkListSents_append (a b : List Chunk) :
    chunkListSents (a ++ b) = chunkListSents a ++ chunkListSents b := by
  simp [chunkListSents]

lemma chunkListSents_singleton (c : Chunk) :
    chunkListSents [c] = c.transcript_sentences := by
  simp [chunkListSents]

lemma stateSents_mk_some (chs : List Chunk) (c : Chunk) :
    stateSents ⟨chs, some c⟩ = chunkListSents chs ++ c.transcript_sentences := rfl

lemma stateSents_mk_none (chs : List Chunk) :
    stateSents ⟨chs, none⟩ = chunkListSents chs ++ [] := rfl

lemma mem_stateSents_processWindow (M : EmbedModel) (sp : List (ℤ × String))
    (sembs : List (ℤ × Vec)) (θ : ℚ) (st : ChunkState) (ws : List String) (s : String) :
    s ∈ stateSents (processWindow M sp sembs θ st ws) ↔
      s ∈ stateSents st ∨ (windowAccepted M sembs θ ws = true ∧ s ∈ ws) := by
  obtain ⟨chs, cur⟩ := st
  by_cases hempty : ws = []
  · subst hempty
    simp [processWindow]
  rw [processWindow, windowAccepted]
  simp only [hempty, if_false]
  cases hfb : find_best_slide_match M (M.encode (joinWords ws)) sembs with
  | none => simp
  | some pv =>
    obtain ⟨p, v⟩ := pv
    dsimp only
    by_cases hθ : θ ≤ v
    · simp only [hθ, if_true, decide_true_eq_true]
      cases cur with
      | none =>
        simp only [stateSents_mk_some, stateSents_mk_none, newChunk, List.mem_append,
          List.not_mem_nil, or_false, true_and]
      | some c =>
        by_cases hpg : c.page_num = some p
        · simp only [hpg, ne_eq, not_true_eq_false, if_false]
          simp only [stateSents_mk_some, List.mem_append, mem_extendChunk, true_and]
          tauto
        · simp only [ne_eq, hpg, not_false_eq_true, if_true]
          simp only [stateSents_mk_some, chunkListSents_append, chunkListSents_singleton,
            newChunk, List.mem_append, true_and]
    · have hdec : decide (θ ≤ v) = false := by simp [hθ]
      rw [if_neg hθ]
      simp only [hdec, Bool.false_eq_true, false_and, or_false]
      cases cur with
      | none => simp
      | some c =>
        simp only [stateSents_mk_some, stateSents_mk_none, chunkListSents_append,
          chunkListSents_singleton, List.mem_append, List.not_mem_nil, or_false]

lemma mem_stateSents_foldl (M : EmbedModel) (sp : List (ℤ × String))
    (sembs : List (ℤ × Vec)) (θ : ℚ) (windows : List (List String)) (s : String) :
    ∀ st : ChunkState,
      s ∈ stateSents (windows.foldl (processWindow M sp sembs θ) st) ↔
        s ∈ stateSents st ∨ ∃ ws ∈ windows, windowAccepted M sembs θ ws = true ∧ s ∈ ws := by
  induction windows with
  | nil => intro st; simp
  | cons w rest ih =>
    intro st
    simp only [List.foldl_cons]
    rw [ih, mem_stateSents_processWindow]
    simp only [List.mem_cons]
    constructor
    · rintro ((h | h) | ⟨ws, hws, hacc, hmem⟩)
      · exact Or.inl h
      · exact Or.inr ⟨w, Or.inl rfl, h.1, h.2⟩
      · exact Or.inr ⟨ws, Or.inr hws, hacc, hmem⟩
    · rintro (h | ⟨ws, hws, hacc, hmem⟩)
      · exact Or.inl (Or.inl h)
      · rcases hws with rfl | hws
        · exact Or.inl (Or.inr ⟨hacc, hmem⟩)
        · exact Or.inr ⟨ws, hws, hacc, hmem⟩

lemma mem_chunkListSents_finalChunks (st : ChunkState) (s : String) :
    s ∈ chunkListSents (finalChunks st) ↔ s ∈ stateSents st := by
  match hcur : st.current with
  | none => simp [finalChunks, stateSents, hcur]
  | some c => simp [finalChunks, stateSents, hcur, chunkListSents]

/-! ### Membership characterization of the assembler -/

lemma mem_resultSents_updateAt (p : ℤ) (xs : List String)
    (sd : List (ℤ × String × List String)) (s : String)
    (h : (lookupZ p sd).isSome) :
    s ∈ resultSents (updateAt p (fun ct => (ct.1, ct.2 ++ xs)) sd) ↔
      s ∈ resultSents sd ∨ s ∈ xs := by
  induction sd with
  | nil => simp [lookupZ] at h
  | cons hd tl ih =>
    obtain ⟨q, ct⟩ := hd
    by_cases hpq : p = q
    · simp only [updateAt, hpq, if_true, resultSents, List.map_cons, List.flatten_cons,
        List.mem_append]
      simp only [resultSents] at *
      tauto
    · simp only [lookupZ, hpq, if_false] at h
      simp only [updateAt, hpq, if_false, resultSents, List.map_cons, List.flatten_cons,
        List.mem_append]
      simp only [resultSents] at ih
      rw [ih h]
      tauto

lemma mem_resultSents_append_empty (sd : List (ℤ × String × List String))
    (p : ℤ) (content : String) (s : String) :
    s ∈ resultSents (sd ++ [(p, content, [])]) ↔ s ∈ resultSents sd := by
  simp [resultSents]

lemma mem_resultSents_addChunk (sd : List (ℤ × String × List String)) (c : Chunk)
    (s : String) :
    s ∈ resultSents (addChunk sd c) ↔
      s ∈ resultSents sd ∨ (c.page_num ≠ none ∧ s ∈ c.transcript_sentences) := by
  cases hpg : c.page_num with
  | none => simp [addChunk, hpg]
  | some p =>
    rw [addChunk]
    simp only [hpg]
    by_cases hk : (lookupZ p sd).isSome
    · simp only [hk, if_true]
      rw [mem_resultSents_updateAt p c.transcript_sentences sd s hk]
      simp
    · simp only [hk, if_false, Bool.false_eq_true]
      have hk2 : (lookupZ p (sd ++ [(p, c.slide_content, [])])).isSome := by
        rw [lookupZ_isSome_iff]
        simp
      rw [mem_resultSents_updateAt p c.transcript_sentences _ s hk2,
        mem_resultSents_append_empty]
      simp

lemma mem_resultSents_foldl_addChunk (chunks : List Chunk) (s : String) :
    ∀ sd : List (ℤ × String × List String),
      s ∈ resultSents (chunks.foldl addChunk sd) ↔
        s ∈ resultSents sd ∨
          ∃ c ∈ chunks, c.page_num ≠ none ∧ s ∈ c.transcript_sentences := by
  induction chunks with
  | nil => intro sd; simp
  | cons c rest ih =>
    intro sd
    simp only [List.foldl_cons]
    rw [ih, mem_resultSents_addChunk]
    simp only [List.mem_cons]
    constructor
    · rintro ((h | h) | ⟨c2, hc2, hpg, hmem⟩)
      · exact Or.inl h
      · exact Or.inr ⟨c, Or.inl rfl, h.1, h.2⟩
      · exact Or.inr ⟨c2, Or.inr hc2, hpg, hmem⟩
    · rintro (h | ⟨c2, hc2, hpg, hmem⟩)
      · exact Or.inl (Or.inl h)
      · rcases hc2 with rfl | hc2
        · exact Or.inl (Or.inr ⟨hpg, hmem⟩)
        · exact Or.inr ⟨c2, hc2, hpg, hmem⟩

lemma resultSents_init_empty (sp : List (ℤ × String)) (s : String) :
    s ∈ resultSents (sp.map (fun pc => (pc.1, pc.2, ([] : List String)))) ↔ False := by
  simp only [resultSents, List.mem_flatten, List.mem_map, iff_false, not_exists, not_and]
  rintro x ⟨⟨q, ct⟩, ⟨a, hmem, heq⟩, rfl⟩
  obtain ⟨rfl, rfl⟩ := Prod.mk.injEq .. ▸ heq
  simp

lemma mem_resultSents_build_simple_dict (chunks : List Chunk)
    (sp : List (ℤ × String)) (s : String) :
    s ∈ resultSents (build_simple_dict chunks sp) ↔
      ∃ c ∈ chunks, c.page_num ≠ none ∧ s ∈ c.transcript_sentences := by
  rw [build_simple_dict, mem_resultSents_foldl_addChunk, resultSents_init_empty]
  simp

/-! ### Structural invariants of the chunk list -/

lemma build_chunks_with_windows_ok (M : EmbedModel) (tr : List (String × Vec))
    (sp : List (ℤ × String)) (w : ℤ) (θ : ℚ) (cs : List Chunk)
    (h : build_chunks_with_windows M tr sp w θ = .ok cs) :
    ∃ windows, build_windows (tr.map Prod.fst) w = .ok windows ∧
      cs = finalChunks (windows.foldl
        (processWindow M sp (generate_slide_embeddings M sp) θ) ⟨[], none⟩) := by
  unfold build_chunks_with_windows at h
  cases hbw : build_windows (tr.map Prod.fst) w with
  | error e => rw [hbw] at h; simp at h
  | ok windows =>
    rw [hbw] at h
    simp only [Except.ok.injEq] at h
    exact ⟨windows, rfl, h.symm⟩

lemma mem_finalChunks_chunks (st : ChunkState) (c : Chunk) (h : c ∈ st.chunks) :
    c ∈ finalChunks st := by
  cases hcur : st.current with
  | none => simpa [finalChunks, hcur]
  | some c2 => simp [finalChunks, hcur, h]

lemma mem_finalChunks_current (st : ChunkState) (c : Chunk) (h : st.current = some c) :
    c ∈ finalChunks st := by
  simp [finalChunks, h]

lemma pagesOK_processWindow (M : EmbedModel) (sp : List (ℤ × String))
    (sembs : List (ℤ × Vec)) (θ : ℚ) (st : ChunkState) (ws : List String)
    (h : ∀ c ∈ finalChunks st, ∃ p, c.page_num = some p ∧ p ∈ sembs.map Prod.fst) :
    ∀ c ∈ finalChunks (processWindow M sp sembs θ st ws),
      ∃ p, c.page_num = some p ∧ p ∈ sembs.map Prod.fst := by
  obtain ⟨chs, cur⟩ := st
  have hchs : ∀ c ∈ chs, ∃ p, c.page_num = some p ∧ p ∈ sembs.map Prod.fst := by
    intro c hc
    exact h c (mem_finalChunks_chunks ⟨chs, cur⟩ c hc)
  by_cases hempty : ws = []
  · subst hempty; simpa [processWindow] using h
  rw [processWindow]
  simp only [hempty, if_false]
  cases hfb : find_best_slide_match M (M.encode (joinWords ws)) sembs with
  | none => exact h
  | some pv =>
    obtain ⟨p, v⟩ := pv
    dsimp only
    have hpmem : p ∈ sembs.map Prod.fst := find_best_slide_match_mem M _ sembs p v hfb
    by_cases hθ : θ ≤ v
    · rw [if_pos hθ]
      cases cur with
      | none =>
        intro c hc
        have hc2 : c ∈ chs ∨ c = newChunk sp p v ws := by
          simpa [finalChunks] using hc
        rcases hc2 with hc2 | rfl
        · exact hchs c hc2
        · exact ⟨p, by simp [newChunk], hpmem⟩
      | some c0 =>
        have hc0 : ∃ p, c0.page_num = some p ∧ p ∈ sembs.map Prod.fst :=
          h c0 (mem_finalChunks_current ⟨chs, some c0⟩ c0 rfl)
        by_cases hpg : c0.page_num = some p
        · simp only [hpg, ne_eq, not_true_eq_false, if_false]
          intro c hc
          have hc2 : c ∈ chs ∨ c = extendChunk c0 v ws := by
            simpa [finalChunks] using hc
          rcases hc2 with hc2 | rfl
          · exact hchs c hc2
          · obtain ⟨q, hq, hqmem⟩ := hc0
            exact ⟨q, by rw [extendChunk_page_num]; exact hq, hqmem⟩
        · simp only [ne_eq, hpg, not_false_eq_true, if_true]
          intro c hc
          have hc2 : c ∈ chs ∨ c = c0 ∨ c = newChunk sp p v ws := by
            simpa [finalChunks, or_assoc] using hc
          rcases hc2 with hc2 | rfl | rfl
          · exact hchs c hc2
          · exact hc0
          · exact ⟨p, by simp [newChunk], hpmem⟩
    · rw [if_neg hθ]
      cases cur with
      | none => exact h
      | some c0 =>
        have hc0 : ∃ p, c0.page_num = some p ∧ p ∈ sembs.map Prod.fst :=
          h c0 (mem_finalChunks_current ⟨chs, some c0⟩ c0 rfl)
        intro c hc
        have hc2 : c ∈ chs ∨ c = c0 := by
          simpa [finalChunks] using hc
        rcases hc2 with hc2 | rfl
        · exact hchs c hc2
        · exact hc0

lemma pagesOK_foldl (M : EmbedModel) (sp : List (ℤ × String)) (sembs : List (ℤ × Vec))
    (θ : ℚ) (windows : List (List String)) :
    ∀ st : ChunkState,
      (∀ c ∈ finalChunks st, ∃ p, c.page_num = some p ∧ p ∈ sembs.map Prod.fst) →
      ∀ c ∈ finalChunks (windows.foldl (processWindow M sp sembs θ) st),
        ∃ p, c.page_num = some p ∧ p ∈ sembs.map Prod.fst := by
  induction windows with
  | nil => intro st h; exact h
  | cons w rest ih =>
    intro st h
    simp only [List.foldl_cons]
    exact ih _ (pagesOK_processWindow M sp sembs θ st w h)

lemma build_chunks_pagesOK (M : EmbedModel) (tr : List (String × Vec))
    (sp : List (ℤ × String)) (w : ℤ) (θ : ℚ) (cs : List Chunk)
    (h : build_chunks_with_windows M tr sp w θ = .ok cs) :
    ∀ c ∈ cs, ∃ p, c.page_num = some p ∧ p ∈ sp.map Prod.fst := by
  obtain ⟨windows, hbw, rfl⟩ := build_chunks_with_windows_ok M tr sp w θ cs h
  have := pagesOK_foldl M sp (generate_slide_embeddings M sp) θ windows ⟨[], none⟩
    (by intro c hc; simp [finalChunks] at hc)
  rw [generate_slide_embeddings_map_fst] at this
  exact this

/-! ### Duplicate-freedom of individual chunks -/

lemma nodup_processWindow (M : EmbedModel) (sp : List (ℤ × String))
    (sembs : List (ℤ × Vec)) (θ : ℚ) (st : ChunkState) (ws : List String)
    (hws : ws.Nodup)
    (h : ∀ c ∈ finalChunks st, c.transcript_sentences.Nodup) :
    ∀ c ∈ finalChunks (processWindow M sp sembs θ st ws),
      c.transcript_sentences.Nodup := by
  obtain ⟨chs, cur⟩ := st
  have hchs : ∀ c ∈ chs, c.transcript_sentences.Nodup := by
    intro c hc
    exact h c (mem_finalChunks_chunks ⟨chs, cur⟩ c hc)
  by_cases hempty : ws = []
  · subst hempty; simpa [processWindow] using h
  rw [processWindow]
  simp only [hempty, if_false]
  cases hfb : find_best_slide_match M (M.encode (joinWords ws)) sembs with
  | none => exact h
  | some pv =>
    obtain ⟨p, v⟩ := pv
    dsimp only
    by_cases hθ : θ ≤ v
    · rw [if_pos hθ]
      cases cur with
      | none =>
        intro c hc
        have hc2 : c ∈ chs ∨ c = newChunk sp p v ws := by
          simpa [finalChunks] using hc
        rcases hc2 with hc2 | rfl
        · exact hchs c hc2
        · simpa [newChunk] using hws
      | some c0 =>
        have hc0 : c0.transcript_sentences.Nodup :=
          h c0 (mem_finalChunks_current ⟨chs, some c0⟩ c0 rfl)
        by_cases hpg : c0.page_num = some p
        · simp only [hpg, ne_eq, not_true_eq_false, if_false]
          intro c hc
          have hc2 : c ∈ chs ∨ c = extendChunk c0 v ws := by
            simpa [finalChunks] using hc
          rcases hc2 with hc2 | rfl
          · exact hchs c hc2
          · exact nodup_extendChunk c0 v ws hc0
        · simp only [ne_eq, hpg, not_false_eq_true, if_true]
          intro c hc
          have hc2 : c ∈ chs ∨ c = c0 ∨ c = newChunk sp p v ws := by
            simpa [finalChunks, or_assoc] using hc
          rcases hc2 with hc2 | rfl | rfl
          · exact hchs c hc2
          · exact hc0
          · simpa [newChunk] using hws
    · rw [if_neg hθ]
      cases cur with
      | none => exact h
      | some c0 =>
        have hc0 : c0.transcript_sentences.Nodup :=
          h c0 (mem_finalChunks_current ⟨chs, some c0⟩ c0 rfl)
        intro c hc
        have hc2 : c ∈ chs ∨ c = c0 := by
          simpa [finalChunks] using hc
        rcases hc2 with hc2 | rfl
        · exact hchs c hc2
        · exact hc0

lemma nodup_foldl (M : EmbedModel) (sp : List (ℤ × String)) (sembs : List (ℤ × Vec))
    (θ : ℚ) (windows : List (List String)) (hws : ∀ ws ∈ windows, ws.Nodup) :
    ∀ st : ChunkState,
      (∀ c ∈ finalChunks st, c.transcript_sentences.Nodup) →
      ∀ c ∈ finalChunks (windows.foldl (processWindow M sp sembs θ) st),
        c.transcript_sentences.Nodup := by
  induction windows with
  | nil => intro st h; exact h
  | cons w rest ih =>
    intro st h
    simp only [List.foldl_cons]
    exact ih (fun ws hmem => hws ws (List.mem_cons_of_mem _ hmem)) _
      (nodup_processWindow M sp sembs θ st w (hws w (List.mem_cons_self _ _)) h)

lemma build_windows_sublist (l : List String) (w : ℤ) (windows : List (List String))
    (h : build_windows l w = .ok windows) : ∀ ws ∈ windows, ws.Sublist l := by
  unfold build_windows at h
  by_cases hz : w / 2 = 0
  · simp [hz] at h
  · simp only [hz, if_false, Except.ok.injEq] at h
    subst h
    intro ws hws
    simp only [List.mem_map] at hws
    obtain ⟨i, _, rfl⟩ := hws
    exact ((l.drop i).take_sublist w.toNat).trans (l.drop_sublist i)

lemma build_chunks_nodup (M : EmbedModel) (tr : List (String × Vec))
    (sp : List (ℤ × String)) (w : ℤ) (θ : ℚ) (cs : List Chunk)
    (hnd : (tr.map Prod.fst).Nodup)
    (h : build_chunks_with_windows M tr sp w θ = .ok cs) :
    ∀ c ∈ cs, c.transcript_sentences.Nodup := by
  obtain ⟨windows, hbw, rfl⟩ := build_chunks_with_windows_ok M tr sp w θ cs h
  apply nodup_foldl M sp (generate_slide_embeddings M sp) θ windows
  · intro ws hmem
    exact (build_windows_sublist _ w windows hbw ws hmem).nodup hnd
  · intro c hc
    simp [finalChunks] at hc

/-! ### Key-set preservation of the assembler -/

lemma addChunk_map_fst (sd : List (ℤ × String × List String)) (c : Chunk)
    (h : ∀ p, c.page_num = some p → p ∈ sd.map Prod.fst) :
    (addChunk sd c).map Prod.fst = sd.map Prod.fst := by
  cases hpg : c.page_num with
  | none => simp [addChunk, hpg]
  | some p =>
    rw [addChunk]
    simp only [hpg]
    have hk : (lookupZ p sd).isSome := (lookupZ_isSome_iff p sd).mpr (h p hpg)
    simp only [hk, if_true]
    exact updateAt_map_fst p _ sd

lemma foldl_addChunk_map_fst (chunks : List Chunk) :
    ∀ sd : List (ℤ × String × List String),
      (∀ c ∈ chunks, ∀ p, c.page_num = some p → p ∈ sd.map Prod.fst) →
      (chunks.foldl addChunk sd).map Prod.fst = sd.map Prod.fst := by
  induction chunks with
  | nil => intro sd _; rfl
  | cons c rest ih =>
    intro sd h
    simp only [List.foldl_cons]
    have hkeys : (addChunk sd c).map Prod.fst = sd.map Prod.fst :=
      addChunk_map_fst sd c (h c (List.mem_cons_self _ _))
    rw [ih (addChunk sd c) (by
      intro c2 hc2 p hp
      rw [hkeys]
      exact h c2 (List.mem_cons_of_mem _ hc2) p hp), hkeys]

lemma init_map_fst (sp : List (ℤ × String)) :
    (sp.map (fun pc => (pc.1, pc.2, ([] : List String)))).map Prod.fst = sp.map Prod.fst := by
  simp

lemma build_simple_dict_map_fst (chunks : List Chunk) (sp : List (ℤ × String))
    (h : ∀ c ∈ chunks, ∀ p, c.page_num = some p → p ∈ sp.map Prod.fst) :
    (build_simple_dict chunks sp).map Prod.fst = sp.map Prod.fst := by
  rw [build_simple_dict, foldl_addChunk_map_fst chunks _ (by
    intro c hc p hp
    rw [init_map_fst]
    exact h c hc p hp), init_map_fst]

/-! ### Threshold monotonicity of acceptance -/

lemma windowAccepted_mono (M : EmbedModel) (sembs : List (ℤ × Vec)) (θ θ' : ℚ)
    (hθ : θ ≤ θ') (ws : List String) (h : windowAccepted M sembs θ' ws = true) :
    windowAccepted M sembs θ ws = true := by
  rw [windowAccepted] at h ⊢
  cases hfb : find_best_slide_match M (M.encode (joinWords ws)) sembs with
  | none => rw [hfb] at h; simp at h
  | some pv =>
    obtain ⟨p, v⟩ := pv
    rw [hfb] at h
    simp only [decide_eq_true_eq] at h ⊢
    exact le_trans hθ h

/-! ### Zero-vector convention of the scorer -/

lemma dotQ_replicate_zero (a : Vec) (d : ℕ) : dotQ a (List.replicate d 0) = 0 := by
  induction a generalizing d with
  | nil => simp [dotQ]
  | cons x rest ih =>
    cases d with
    | zero => simp [dotQ]
    | succ d2 =>
      simp only [List.replicate_succ, dotQ, List.zipWith_cons_cons, List.sum_cons, mul_zero,
        zero_add]
      exact ih d2

lemma normSq_nonneg (v : Vec) : 0 ≤ normSq v := by
  induction v with
  | nil => simp [normSq, dotQ]
  | cons x rest ih =>
    have hx : (0 : ℚ) ≤ x * x := mul_self_nonneg x
    have : normSq (x :: rest) = x * x + normSq rest := by
      simp [normSq, dotQ]
    rw [this]
    exact add_nonneg hx ih

lemma safeNorm_ne_zero (v : Vec) : safeNorm v ≠ 0 := by
  rw [safeNorm]
  by_cases h : normSq v = 0
  · simp [h]
  · simp only [h, if_false]
    have hpos : (0 : ℚ) < normSq v := lt_of_le_of_ne (normSq_nonneg v) (Ne.symm h)
    have : (0 : ℝ) < Real.sqrt (normSq v) := Real.sqrt_pos.mpr (by exact_mod_cast hpos)
    exact ne_of_gt this

/-! ### Key order of the transcript dict -/

lemma dictInsert_map_fst (d : List (String × Vec)) (k : String) (v : Vec) :
    (dictInsert d k v).map Prod.fst =
      if k ∈ d.map Prod.fst then d.map Prod.fst else d.map Prod.fst ++ [k] := by
  induction d with
  | nil => simp [dictInsert]
  | cons hd tl ih =>
    obtain ⟨q, a⟩ := hd
    by_cases h : q = k
    · subst h
      simp [dictInsert]
    · simp only [dictInsert, h, if_false, List.map_cons]
      rw [ih]
      by_cases hmem : k ∈ tl.map Prod.fst
      · simp [hmem, Ne.symm h]
      · simp [hmem, Ne.symm h]

lemma dictInsert_values (d : List (String × Vec)) (k : String) (v : Vec)
    (h : ∀ e ∈ d, e.2 = v ∨ e.1 ≠ k) :
    ∀ e ∈ dictInsert d k v, e ∈ d ∨ e = (k, v) := by
  induction d with
  | nil => simp [dictInsert]
  | cons hd tl ih =>
    obtain ⟨q, a⟩ := hd
    by_cases hq : q = k
    · subst hq
      simp only [dictInsert, if_true]
      intro e he
      rcases List.mem_cons.mp he with rfl | he2
      · exact Or.inr rfl
      · exact Or.inl (List.mem_cons_of_mem _ he2)
    · simp only [dictInsert, hq, if_false]
      intro e he
      rcases List.mem_cons.mp he with rfl | he2
      · exact Or.inl (List.mem_cons_self _ _)
      · rcases ih (fun e2 he3 => h e2 (List.mem_cons_of_mem _ he3)) e he2 with h2 | h2
        · exact Or.inl (List.mem_cons_of_mem _ h2)
        · exact Or.inr h2

lemma build_transcripts_keys (embed : String → Vec) (lines : List String) :
    (build_transcripts embed lines).map Prod.fst = firstOccurrences lines := by
  rw [build_transcripts, firstOccurrences]
  suffices hgen : ∀ (d : List (String × Vec)),
      ((lines.foldl (fun d line => dictInsert d line (embed line)) d).map Prod.fst) =
        lines.foldl (fun acc l => if l ∈ acc then acc else acc ++ [l]) (d.map Prod.fst) by
    exact hgen []
  induction lines with
  | nil => intro d; rfl
  | cons line rest ih =>
    intro d
    simp only [List.foldl_cons]
    rw [ih, dictInsert_map_fst]

lemma firstOccurrences_sound (lines : List String) :
    (firstOccurrences lines).Nodup ∧ ∀ s, s ∈ firstOccurrences lines ↔ s ∈ lines := by
  rw [firstOccurrences]
  suffices hgen : ∀ acc : List String, acc.Nodup →
      (lines.foldl (fun acc l => if l ∈ acc then acc else acc ++ [l]) acc).Nodup ∧
      ∀ s, s ∈ lines.foldl (fun acc l => if l ∈ acc then acc else acc ++ [l]) acc ↔
        s ∈ acc ∨ s ∈ lines by
    obtain ⟨h1, h2⟩ := hgen [] List.nodup_nil
    exact ⟨h1, fun s => by rw [h2 s]; simp⟩
  induction lines with
  | nil => intro acc hacc; exact ⟨hacc, fun s => by simp⟩
  | cons line rest ih =>
    intro acc hacc
    simp only [List.foldl_cons]
    by_cases hmem : line ∈ acc
    · simp only [hmem, if_true]
      obtain ⟨h1, h2⟩ := ih acc hacc
      refine ⟨h1, fun s => ?_⟩
      rw [h2 s]
      simp only [List.mem_cons]
      constructor
      · rintro (hs | hs)
        · exact Or.inl hs
        · exact Or.inr (Or.inr hs)
      · rintro (hs | rfl | hs)
        · exact Or.inl hs
        · exact Or.inl hmem
        · exact Or.inr hs
    · simp only [hmem, if_false]
      obtain ⟨h1, h2⟩ := ih (acc ++ [line]) (by
        simp only [List.nodup_append, List.nodup_cons, List.nodup_nil]
        exact ⟨hacc, by simp, by simpa [List.disjoint_singleton] using hmem⟩)
      refine ⟨h1, fun s => ?_⟩
      rw [h2 s]
      simp only [List.mem_append, List.mem_singleton, List.mem_cons]
      tauto

lemma build_transcripts_value (embed : String → Vec) (lines : List String) :
    ∀ e ∈ build_transcripts embed lines, e.2 = embed e.1 := by
  rw [build_transcripts]
  suffices hgen : ∀ d : List (String × Vec), (∀ e ∈ d, e.2 = embed e.1) →
      ∀ e ∈ lines.foldl (fun d line => dictInsert d line (embed line)) d,
        e.2 = embed e.1 by
    exact hgen [] (by simp)
  induction lines with
  | nil => intro d hd; exact hd
  | cons line rest ih =>
    intro d hd
    simp only [List.foldl_cons]
    apply ih
    intro e he
    rcases dictInsert_values d line (embed line)
        (fun e2 he2 => by
          by_cases hk : e2.1 = line
          · exact Or.inl (by rw [hd e2 he2, hk])
          · exact Or.inr hk) e he with h2 | h2
    · exact hd e h2
    · rw [h2]

/-! ### Shape of the produced window sequence -/

lemma build_windows_spec (sents : List String) (w : ℤ) (hw : 2 ≤ w) :
    build_windows sents w = Except.ok (specWindows sents w.toNat) := by
  obtain ⟨m, rfl⟩ : ∃ m : ℕ, w = (m : ℤ) := ⟨w.toNat, (Int.toNat_of_nonneg (by omega)).symm⟩
  have hm : 2 ≤ m := by exact_mod_cast hw
  have hdiv : ((m : ℤ)) / 2 = ((m / 2 : ℕ) : ℤ) := by omega
  have hstep : (0 : ℤ) < (m : ℤ) / 2 := by omega
  have hz : ¬((m : ℤ) / 2 = 0) := by omega
  have hmax : max 1 (m / 2) = m / 2 := by omega
  rw [build_windows, if_neg hz]
  congr 1
  rw [specWindows, specWindowStarts, windowIndices, if_pos hstep, hdiv]
  simp only [Int.toNat_natCast]
  rw [hmax]

/-! ### Run-level characterization: a sentence is placed in some slide's
transcript list exactly when some accepted window contains it -/

lemma mem_chunkListSents (cs : List Chunk) (s : String) :
    s ∈ chunkListSents cs ↔ ∃ c ∈ cs, s ∈ c.transcript_sentences := by
  simp [chunkListSents, List.mem_flatten]

lemma mem_resultSents_run (M : EmbedModel) (tr : List (String × Vec))
    (sp : List (ℤ × String)) (w : ℤ) (θ : ℚ) (chunks : List Chunk)
    (windows : List (List String))
    (hbw : build_windows (tr.map Prod.fst) w = .ok windows)
    (h : build_chunks_with_windows M tr sp w θ = .ok chunks) (s : String) :
    s ∈ resultSents (build_simple_dict chunks sp) ↔
      ∃ ws ∈ windows,
        windowAccepted M (generate_slide_embeddings M sp) θ ws = true ∧ s ∈ ws := by
  have hpages := build_chunks_pagesOK M tr sp w θ chunks h
  obtain ⟨win2, hbw2, rfl⟩ := build_chunks_with_windows_ok M tr sp w θ chunks h
  have hwin : win2 = windows := by
    have := hbw2.symm.trans hbw
    simpa using this
  subst hwin
  rw [mem_resultSents_build_simple_dict]
  have hchar := mem_stateSents_foldl M sp (generate_slide_embeddings M sp) θ win2 s
    ⟨[], none⟩
  have hstate : s ∈ stateSents (⟨[], none⟩ : ChunkState) ↔ False := by
    simp [stateSents, chunkListSents]
  constructor
  · rintro ⟨c, hc, hpg, hmem⟩
    have : s ∈ chunkListSents (finalChunks (win2.foldl
        (processWindow M sp (generate_slide_embeddings M sp) θ) ⟨[], none⟩)) :=
      (mem_chunkListSents _ s).mpr ⟨c, hc, hmem⟩
    rw [mem_chunkListSents_finalChunks, hchar, hstate] at this
    simpa using this
  · intro hex
    have : s ∈ chunkListSents (finalChunks (win2.foldl
        (processWindow M sp (generate_slide_embeddings M sp) θ) ⟨[], none⟩)) := by
      rw [mem_chunkListSents_finalChunks, hchar, hstate]
      simpa using hex
    obtain ⟨c, hc, hmem⟩ := (mem_chunkListSents _ s).mp this
    obtain ⟨p, hp, _⟩ := hpages c hc
    exact ⟨c, hc, by simp [hp], hmem⟩

/-! ## Claim theorems -/

/-- C2: the source `build_simple_dict` (chunk_matcher.py lines 221-258)
takes only the chunk list and the slide map and returns only the
slide-indexed dictionary; evaluating it at a run with no matched chunks
shows the return value carries no `unmatched_transcripts` component at
all (every slide list is empty and the unmatched sentences appear
nowhere), which is what the caller `app.py` line 177 wrongly assumes it
returns. -/
theorem c2_assembler_returns_only_slide_dict :
    build_simple_dict [] cxSlides = [(1, "A", []), (2, "B", [])] := by decide

unseal Rat.add Rat.mul Rat.inv in
/-- C3 counterexample: with a non-empty sentence list and an empty slide
map, `build_chunks_with_windows` does not raise a configuration error;
it returns an empty chunk list (`_find_best_slide_match` returns `None`
for every window and the window is silently skipped). -/
theorem c3_counterexample :
    build_chunks_with_windows cxM cxTr [] 4 (1/2) = Except.ok [] := by decide

/-- C3 amended: for every model, transcript dict, window size with a
nonzero step, and threshold, alignment against an empty slide map
returns an empty chunk list and raises nothing. -/
theorem c3_empty_slide_set_returns_empty (M : EmbedModel)
    (tr : List (String × Vec)) (w : ℤ) (θ : ℚ) (hw : w / 2 ≠ 0) :
    build_chunks_with_windows M tr [] w θ = Except.ok [] := by
  have hpw : ∀ (ws : List String) (st : ChunkState),
      processWindow M [] (generate_slide_embeddings M []) θ st ws = st := by
    intro ws st
    by_cases h : ws = [] <;>
      simp [processWindow, find_best_slide_match, generate_slide_embeddings, h]
  have hfold : ∀ (windows : List (List String)) (st : ChunkState),
      windows.foldl (processWindow M [] (generate_slide_embeddings M []) θ) st = st := by
    intro windows
    induction windows with
    | nil => intro st; rfl
    | cons wdw rest ih => intro st; simp only [List.foldl_cons, hpw wdw st]; exact ih st
  rw [build_chunks_with_windows, build_windows, if_neg hw]
  simp only [hfold]
  rfl

unseal Rat.add Rat.mul Rat.inv in
/-- C3 witness: the amended theorem evaluated at a concrete model,
three sentences, window size 5 and threshold 1/2. -/
theorem c3_witness :
    build_chunks_with_windows cxM cxTr [] 5 (1/2) = Except.ok [] :=
  c3_empty_slide_set_returns_empty cxM cxTr 5 (1/2) (by decide)

unseal Rat.add Rat.mul Rat.inv in
/-- C4 counterexample: a negative `window_size` does not raise any
error: `range(0, n, window_size // 2)` with a negative step is empty, so
the run silently returns an empty chunk list. -/
theorem c4_counterexample :
    build_chunks_with_windows cxM cxTr cxSlides (-2) (1/2) = Except.ok [] := by decide

/-- C4 amended: a `window_size` of exactly 0 makes the run fail with the
step-zero `range` error (a `ValueError`, raised before any window is
built, not a dedicated configuration error), while every negative
`window_size` raises nothing and silently returns an empty chunk list. -/
theorem c4_nonpositive_window_size (M : EmbedModel) (tr : List (String × Vec))
    (sp : List (ℤ × String)) (w : ℤ) (θ : ℚ) (hw : w ≤ 0) :
    build_chunks_with_windows M tr sp w θ =
      if w = 0 then Except.error ChunkError.rangeStepZero else Except.ok [] := by
  by_cases h0 : w = 0
  · subst h0
    simp only [if_true]
    rw [build_chunks_with_windows, build_windows]
    norm_num
  · have hneg : w < 0 := lt_of_le_of_ne hw h0
    have hstep : w / 2 < 0 := by omega
    have hz : ¬(w / 2 = 0) := by omega
    have hidx : windowIndices (tr.map Prod.fst).length (w / 2) = [] := by
      rw [windowIndices, if_neg (by omega)]
    simp only [h0, if_false]
    rw [build_chunks_with_windows, build_windows, if_neg hz]
    simp only [hidx, List.map_nil, List.foldl_nil]
    rfl

unseal Rat.add Rat.mul Rat.inv in
/-- C4 witness: the amended theorem evaluated at `window_size = -1`. -/
theorem c4_witness :
    build_chunks_with_windows cxM cxTr cxSlides (-1) (1/2) = Except.ok [] := by
  have h := c4_nonpositive_window_size cxM cxTr cxSlides (-1) (1/2) (by decide)
  simpa using h

/-- C5 counterexample: at `window_size = 1` (a positive size the claim
covers) the window stream is not produced at all: `window_size // 2` is
0 and the run dies with the step-zero `range` error, instead of using
step `max(1, window_size // 2) = 1` as the claim states (which would
yield the singleton windows computed by `specWindows`). -/
theorem c5_counterexample :
    build_windows ["a", "b", "c"] 1 = Except.error ChunkError.rangeStepZero ∧
      specWindows ["a", "b", "c"] 1 = [["a"], ["b"], ["c"]] := by
  constructor
  · decide
  · decide

/-- C5 amended: for every `window_size ≥ 2` the windows processed by the
aligner are exactly the spec's: starts at `0, step, 2*step, ...` with
`step = max(1, window_size // 2)` (which equals `window_size // 2`
here), each window taking up to `window_size` consecutive sentences,
the final window possibly shorter; `window_size = 1` instead raises the
step-zero error. -/
theorem c5_windows_match_spec (sents : List String) (w : ℤ) (hw : 2 ≤ w) :
    build_windows sents w = Except.ok (specWindows sents w.toNat) :=
  build_windows_spec sents w hw

/-- C5 witness: the amended theorem evaluated at five sentences and
window size 5 (step 2, windows of up to 5 sentences). -/
theorem c5_witness :
    build_windows ["a", "b", "c", "d", "e"] 5 =
      Except.ok (specWindows ["a", "b", "c", "d", "e"] (5 : ℤ).toNat) :=
  c5_windows_match_spec ["a", "b", "c", "d", "e"] 5 (by decide)

/-- C9: the similarity of any vector against the zero vector assigned to
an empty-text slide is exactly 0 (sklearn `cosine_similarity` replaces a
zero row norm by 1 before dividing, modelled by `safeNorm`), and the
divisor is never zero, so the division-by-zero of cosine similarity is
unreachable and no NaN can arise. -/
theorem c9_zero_vector_similarity (a : Vec) (d : ℕ) :
    cosine_similarity a (zeroVector d) = 0 ∧
      safeNorm a * safeNorm (zeroVector d) ≠ 0 := by
  constructor
  · rw [cosine_similarity, zeroVector, dotQ_replicate_zero]
    simp
  · exact mul_ne_zero (safeNorm_ne_zero a) (safeNorm_ne_zero _)

/-- C10: `build_transcripts` stores sentences as dict keys, so the
sentence list the windows are built over (the key list) is exactly the
first-occurrence deduplication of the cleaned transcript lines: it has
no duplicates, contains exactly the sentences of the input, keeps the
first occurrence's position for each distinct text (later occurrences
are collapsed into it), and maps each sentence to its single stored
embedding. -/
theorem c10_transcript_dict_dedup (embed : String → Vec) (lines : List String) :
    (build_transcripts embed lines).map Prod.fst = firstOccurrences lines ∧
      ((build_transcripts embed lines).map Prod.fst).Nodup ∧
      (∀ s, s ∈ (build_transcripts embed lines).map Prod.fst ↔ s ∈ lines) ∧
      ∀ e ∈ build_transcripts embed lines, e.2 = embed e.1 := by
  obtain ⟨hnd, hmem⟩ := firstOccurrences_sound lines
  refine ⟨build_transcripts_keys embed lines, ?_, ?_, build_transcripts_value embed lines⟩
  · rw [build_transcripts_keys]; exact hnd
  · intro s; rw [build_transcripts_keys]; exact hmem s

unseal Rat.add Rat.mul Rat.inv in
/-- C1 counterexample: in the concrete run with window size 2 and
threshold 1/2, the two overlapping windows `["a","b"]` and `["b","c"]`
match different slides above threshold, and the shared sentence "b" is
placed in the transcript lists of both slide 1 and slide 2, so a
sentence text can occupy two places of the result. -/
theorem c1_counterexample :
    build_chunks_with_windows cxM cxTr cxSlides 2 (1/2) = Except.ok cxChunks ∧
      "b" ∈ slideTranscripts (build_simple_dict cxChunks cxSlides) 1 ∧
      "b" ∈ slideTranscripts (build_simple_dict cxChunks cxSlides) 2 := by
  refine ⟨by decide, by decide, by decide⟩

/-- C1 amended: sentence placement is governed exactly by window
acceptance: a sentence text appears in some slide's transcript list of
the assembled result if and only if some window containing it was
matched above threshold; in particular a sentence shared by overlapping
windows matched to different slides is placed in both slides' lists
(cross-slide duplication occurs), and the source assembler computes no
`unmatched_transcripts` at all. -/
theorem c1_placement_iff_accepted_window (M : EmbedModel)
    (tr : List (String × Vec)) (sp : List (ℤ × String)) (w : ℤ) (θ : ℚ)
    (chunks : List Chunk) (windows : List (List String))
    (hbw : build_windows (tr.map Prod.fst) w = .ok windows)
    (hok : build_chunks_with_windows M tr sp w θ = .ok chunks) :
    ∀ s, s ∈ resultSents (build_simple_dict chunks sp) ↔
      ∃ ws ∈ windows,
        windowAccepted M (generate_slide_embeddings M sp) θ ws = true ∧ s ∈ ws :=
  fun s => mem_resultSents_run M tr sp w θ chunks windows hbw hok s

unseal Rat.add Rat.mul Rat.inv in
/-- C1 witness: the amended theorem at the concrete run, showing "b" is
placed because the accepted window `["a","b"]` contains it. -/
theorem c1_witness : "b" ∈ resultSents (build_simple_dict cxChunks cxSlides) :=
  (c1_placement_iff_accepted_window cxM cxTr cxSlides 2 (1/2) cxChunks
    [["a", "b"], ["b", "c"], ["c"]] (by decide) (by decide) "b").mpr
    ⟨["a", "b"], by decide, by decide, by decide⟩

unseal Rat.add Rat.mul Rat.inv in
/-- C6 counterexample: in the concrete run with window size 3 and
threshold 1/2, windows 1 and 3 match slide 1 while the window between
them matches slide 2, producing two sealed chunks for slide 1 whose
lists share the sentence "c"; the assembled transcript list of slide 1
therefore contains "c" twice. -/
theorem c6_counterexample :
    build_chunks_with_windows cx6M cx6Tr cxSlides 3 (1/2) = Except.ok cx6Chunks ∧
      (slideTranscripts (build_simple_dict cx6Chunks cxSlides) 1).count "c" = 2 := by
  refine ⟨by decide, by decide⟩

/-- C6 amended: duplicate-freedom holds per chunk, not per slide: when
the input sentence texts are distinct, every chunk produced by the
aligner has a duplicate-free transcript list (window seeding copies a
slice of the distinct key list and extension skips sentences already
present), but a slide's assembled list can still repeat a text across
two chunks that target the same slide. -/
theorem c6_within_chunk_nodup (M : EmbedModel) (tr : List (String × Vec))
    (sp : List (ℤ × String)) (w : ℤ) (θ : ℚ) (cs : List Chunk)
    (hnd : (tr.map Prod.fst).Nodup)
    (hok : build_chunks_with_windows M tr sp w θ = .ok cs) :
    ∀ c ∈ cs, c.transcript_sentences.Nodup :=
  build_chunks_nodup M tr sp w θ cs hnd hok

unseal Rat.add Rat.mul Rat.inv in
/-- C6 witness: the amended theorem at the concrete two-chunk run,
applied to its first chunk. -/
theorem c6_witness :
    (⟨some 1, "A", ["a", "b"], [1, 1], 1⟩ : Chunk).transcript_sentences.Nodup :=
  c6_within_chunk_nodup cxM cxTr cxSlides 2 (1/2) cxChunks (by decide) (by decide)
    ⟨some 1, "A", ["a", "b"], [1, 1], 1⟩ (by decide)

/-- C7: threshold monotonicity: for a fixed model, transcript dict,
slide map and window size, raising the similarity threshold never adds a
matched sentence: each sentence text placed in any slide's list under
the higher threshold is also placed under the lower threshold, and the
number of distinct matched texts can only shrink. -/
theorem c7_threshold_monotonicity (M : EmbedModel) (tr : List (String × Vec))
    (sp : List (ℤ × String)) (w : ℤ) (θ θ' : ℚ) (chunks chunks' : List Chunk)
    (hθ : θ ≤ θ')
    (h : build_chunks_with_windows M tr sp w θ = .ok chunks)
    (h' : build_chunks_with_windows M tr sp w θ' = .ok chunks') :
    (∀ s, s ∈ resultSents (build_simple_dict chunks' sp) →
        s ∈ resultSents (build_simple_dict chunks sp)) ∧
      (resultSents (build_simple_dict chunks' sp)).toFinset.card ≤
        (resultSents (build_simple_dict chunks sp)).toFinset.card := by
  obtain ⟨windows, hbw, _⟩ := build_chunks_with_windows_ok M tr sp w θ chunks h
  have hiff := mem_resultSents_run M tr sp w θ chunks windows hbw h
  have hiff' := mem_resultSents_run M tr sp w θ' chunks' windows hbw h'
  have hmono : ∀ s, s ∈ resultSents (build_simple_dict chunks' sp) →
      s ∈ resultSents (build_simple_dict chunks sp) := by
    intro s hs
    obtain ⟨ws, hwmem, hacc, hmem⟩ := (hiff' s).mp hs
    exact (hiff s).mpr
      ⟨ws, hwmem, windowAccepted_mono M (generate_slide_embeddings M sp) θ θ' hθ ws hacc,
        hmem⟩
  refine ⟨hmono, Finset.card_le_card ?_⟩
  intro x hx
  rw [List.mem_toFinset] at hx ⊢
  exact hmono x hx

unseal Rat.add Rat.mul Rat.inv in
/-- C7 witness: at the concrete run, raising the threshold from 1/2 to 2
unmatches every window, and the count of distinct matched texts drops
from 3 to 0. -/
theorem c7_witness :
    (resultSents (build_simple_dict [] cxSlides)).toFinset.card ≤
      (resultSents (build_simple_dict cxChunks cxSlides)).toFinset.card :=
  (c7_threshold_monotonicity cxM cxTr cxSlides 2 (1/2) 2 cxChunks []
    (by decide) (by decide) (by decide)).2

/-- C8: total slide coverage: whenever the full slide map is supplied to
the assembler together with the chunks of an alignment run over that
same map, the key list of the result equals exactly the key list of the
slide map: every slide is pre-seeded with an empty transcript list and
chunk pages never add a new key since each best-match page comes from
the slide map itself. -/
theorem c8_total_slide_coverage (M : EmbedModel) (tr : List (String × Vec))
    (sp : List (ℤ × String)) (w : ℤ) (θ : ℚ) (chunks : List Chunk)
    (hne : sp ≠ [])
    (hok : build_chunks_with_windows M tr sp w θ = .ok chunks) :
    (build_simple_dict chunks sp).map Prod.fst = sp.map Prod.fst := by
  apply build_simple_dict_map_fst
  intro c hc p hp
  obtain ⟨q, hq, hqmem⟩ := build_chunks_pagesOK M tr sp w θ chunks hok c hc
  rw [hp] at hq
  obtain rfl : p = q := by simpa using hq
  exact hqmem

unseal Rat.add Rat.mul Rat.inv in
/-- C8 witness: the theorem at the concrete run with two slides. -/
theorem c8_witness :
    (build_simple_dict cxChunks cxSlides).map Prod.fst = cxSlides.map Prod.fst :=
  c8_total_slide_coverage cxM cxTr cxSlides 2 (1/2) cxChunks (by decide) (by decide)
